import Mathlib

set_option autoImplicit false

/-! Shallow embedding of the Dijnet invoice reconciliation core
(`custom_components/dijnet/controller.py` and
`custom_components/dijnet/dijnet_session.py`).

Calendar dates are modelled as natural numbers (day ordinals).  The
source stores dates as fixed-width ISO `YYYY-MM-DD` strings and compares
them with the native string comparison (watermark loop, line 621) or as
`date` objects (classifier, line 698); on the fixed-width ISO format the
lexicographic string order coincides with the chronological order, so
the order on `Nat` is a faithful model of every date comparison in the
source. -/

/-- Invoice record (`Invoice` and `PaidInvoice` classes of
controller.py).  A `PaidInvoice` is an `Invoice` carrying a `paid_at`
date; unpaid invoices carry `none` there. -/
structure Invoice where
  provider : String
  display_name : String
  invoice_no : String
  issuance_date : Nat
  amount : Int
  deadline : Nat
  paid_at : Option Nat := none
deriving DecidableEq

/-- Model of `Invoice.__eq__` (controller.py lines 183-188): equality is
decided by the (provider, invoice_no) key only; all other fields are
payload. -/
def invoice_eq (a b : Invoice) : Bool :=
  a.provider == b.provider && a.invoice_no == b.invoice_no

/-- Linear scan for an invoice comparing equal to `p`, as in the inner
`for ... if ... == ...: already_exists = True` loops of
`update_invoices` (lines 583-587 and 598-602). -/
def contains_invoice (xs : List Invoice) (p : Invoice) : Bool :=
  xs.any (fun x => invoice_eq x p)

/-- Python `list.remove` of the first element comparing equal to `p`,
as in the `unpaid_invoices.remove(unpaid_invoice)` / `break` pattern
(lines 592-595). -/
def remove_first_invoice (p : Invoice) : List Invoice → List Invoice
  | [] => []
  | x :: xs => if invoice_eq x p then xs else x :: remove_first_invoice p xs

/-- State threaded through the merge loops of `update_invoices`
(lines 579-605): the accumulated paid list, the working unpaid list and
the batch of newly discovered paid invoices. -/
@[ext]
structure MergeState where
  paid : List Invoice
  unpaid : List Invoice
  newPaid : List Invoice
deriving DecidableEq

/-- One iteration of the first merge loop (lines 582-595): a possible
new paid invoice is appended only when no paid entry shares its key, in
which case the first key-equal unpaid invoice is also removed. -/
def merge_paid_step (s : MergeState) (p : Invoice) : MergeState :=
  if contains_invoice s.paid p then s
  else ⟨s.paid ++ [p], remove_first_invoice p s.unpaid, s.newPaid ++ [p]⟩

/-- One iteration of the second merge loop (lines 597-605): a possible
new unpaid invoice is appended only when not already present by key. -/
def merge_unpaid_step (unpaid : List Invoice) (u : Invoice) : List Invoice :=
  if contains_invoice unpaid u then unpaid else unpaid ++ [u]

/-- The merge of one classified snapshot (`possible_new_paid_invoices`,
`possible_new_unpaid_invoices`) into the copied paid/unpaid state
(lines 579-605). -/
def merge_invoices (possPaid possUnpaid paid0 unpaid0 : List Invoice) : MergeState :=
  let s := possPaid.foldl merge_paid_step ⟨paid0, unpaid0, []⟩
  ⟨s.paid, possUnpaid.foldl merge_unpaid_step s.unpaid, s.newPaid⟩

/-- Ledger file update (lines 607-614): a new block is appended exactly
when the merge discovered new paid invoices; `none` models a missing
file, and appending to a missing file creates it (mode `"a"`). -/
def append_new_paid_invoices (f : Option (List (List Invoice))) (newPaid : List Invoice) :
    Option (List (List Invoice)) :=
  if 0 < newPaid.length then some (f.getD [] ++ [newPaid]) else f

/-- Watermark computation (lines 616-622): `today - 31` lowered to any
smaller issuance date among the still-unpaid invoices. -/
def next_query_date (today : Nat) (unpaid : List Invoice) : Nat :=
  unpaid.foldl
    (fun acc u => if acc > u.issuance_date then u.issuance_date else acc)
    (today - 31)

/-- Character-list test that `needle` occurs at the head of `hay`. -/
def chars_start_with : List Char → List Char → Bool
  | [], _ => true
  | _ :: _, [] => false
  | a :: as, b :: bs => a == b && chars_start_with as bs

/-- Character-list substring containment. -/
def chars_contain (needle : List Char) : List Char → Bool
  | [] => chars_start_with needle []
  | c :: cs => chars_start_with needle (c :: cs) || chars_contain needle cs

/-- Python `needle in hay` on strings. -/
def str_contains (hay needle : String) : Bool :=
  chars_contain needle.toList hay.toList

/-- Model of `DijnetController._is_invoice_paid` (lines 663-702).
`some true` is Paid, `some false` is Unpaid and `none` is the
unclassifiable verdict.  `flag` is the
`_encashment_reported_as_paid_after_deadline` construction flag,
`state_text` is the column-8 text, `deadline` the parsed column-6 date
and `today` is `datetime.now().date()`. -/
def is_invoice_paid (flag : Bool) (state_text : String) (deadline today : Nat) : Option Bool :=
  if str_contains state_text "Tovább a fizetéshez" then some false
  else if str_contains state_text "Rendezett" then some true
  else if str_contains state_text "Fizetve" then some true
  else if str_contains state_text "Rendezetlen" then some false
  else if str_contains state_text "Mobiltelefonra küldve" then some false
  else if str_contains state_text "Internetbanknak átadva" then some false
  else if str_contains state_text "Csoportos beszedés"
      || str_contains state_text "Beszedés alatt" then
    (if flag then some (decide (deadline < today)) else some false)
  else none

/-- One row of the payment-history table of a paid invoice: its
column-1 date and column-4 action text. -/
structure HistoryRow where
  date : Nat
  action : String
deriving DecidableEq

/-- The successful-payment marker compared against column 4 of a
history row (line 502). -/
def successful_payment_marker : String := "**Sikeres fizetés**"

/-- Paid records appended to `possible_new_paid_invoices` for one row
classified Paid while walking its payment-history table (lines
499-524): the loop appends one record per history row, using the
matched entry's date for a marker row and the row's deadline for every
other row.  With an empty history table the loop appends nothing; the
deadline fallback of lines 525-536 builds an invoice but never appends
it.  `mk` stands for `_create_invoice_from_row` applied to the fixed
row with a varying `paid_at`. -/
def paid_records_for_row (mk : Nat → Invoice) (row_deadline : Nat)
    (hist : List HistoryRow) : List Invoice :=
  hist.map (fun h =>
    if h.action == successful_payment_marker then mk h.date else mk row_deadline)

/-- Characters before the first occurrence of `c`, as Python
`s.split(c)[0]`. -/
def take_until (c : Char) : List Char → List Char
  | [] => []
  | x :: xs => if x == c then [] else x :: take_until c xs

/-- Characters after the last occurrence of `c` (the whole list when
`c` is absent), as Python `s.split(c)[-1]`. -/
def after_last (c : Char) (l : List Char) : List Char :=
  (take_until c l.reverse).reverse

/-- Logical name encoded in a download link href: the part before any
query string, minus its 4-character `_ext` suffix — Python
`href.split("?")[0][:-4]` (line 556). -/
def link_name (href : String) : String :=
  ⟨(take_until '?' href.toList).take ((take_until '?' href.toList).length - 4)⟩

/-- File extension encoded in a download link href: the last `_`
segment of the part before any query string — Python
`href.split("?")[0].split("_")[-1]` (line 555). -/
def link_extension (href : String) : String :=
  ⟨after_last '_' (take_until '?' href.toList)⟩

/-- Deterministic attachment filename (lines 557-562); `slug` stands
for homeassistant's `slugify` and the issuance date renders without
separators (`%Y%m%d`), modelled by `toString` on the day ordinal. -/
def attachment_filename (slug : String → String) (issuance_date : Nat)
    (invoice_no href : String) : String :=
  slug (toString issuance_date ++ "_" ++ invoice_no ++ "_" ++ link_name href)
    ++ "." ++ link_extension href

/-- Existence check performed before a download (`path.exists`,
line 568), on the list of files present in the target directory. -/
def has_file (files : List String) (n : String) : Bool :=
  files.any (fun f => f == n)

/-- One download-link iteration (lines 566-574): the state is the list
of files present in the target directory paired with the writes
performed so far; a download request and a file write happen only when
no file of that name exists, and an existing file is left untouched. -/
def download_step (st : List String × List String) (fname : String) :
    List String × List String :=
  if has_file st.1 fname then st else (st.1 ++ [fname], st.2 ++ [fname])

/-- The download loop over the derived filenames of one invoice's
links (lines 551-574), starting with no writes performed. -/
def download_run (names : List String) (files : List String) :
    List String × List String :=
  names.foldl download_step (files, [])

/-- Download processing of one invoice's download-page links. -/
def process_links (slug : String → String) (issuance_date : Nat) (invoice_no : String)
    (hrefs : List String) (files : List String) : List String × List String :=
  download_run (hrefs.map (attachment_filename slug issuance_date invoice_no)) files

/-- Names a download run starting from `files` actually writes, in
order; a proof-side reformulation of the run's write list. -/
def fresh_names (files : List String) : List String → List String
  | [] => []
  | n :: ns =>
    if has_file files n then fresh_names files ns
    else n :: fresh_names (files ++ [n]) ns

/-- Shapes of a transport response body to the login post. -/
inductive LoginResponse where
  | malformedBody
  | missingSuccessField
  | envelope (success : Bool)
deriving DecidableEq

/-- Model of `DijnetSession.post_login` (dijnet_session.py lines
220-247): `response.json()` raises on a body that is not JSON, the
`json["success"]` subscript raises `KeyError` when the field is absent,
and only a well-formed envelope returns its boolean. -/
def post_login : LoginResponse → Except String Bool
  | .malformedBody => .error "JSONDecodeError"
  | .missingSuccessField => .error "KeyError: success"
  | .envelope b => .ok b

/-- In-memory controller state: `_registry` (`none` before the lazy
load, then the next-query-date it holds), `_paid_invoices` and
`_unpaid_invoices`. -/
structure DijnetController where
  registry : Option Nat
  paid_invoices : List Invoice
  unpaid_invoices : List Invoice
deriving DecidableEq

/-- The two persisted files of one controller; `none` models a missing
file.  The paid-invoice file is a sequence of appended blocks. -/
structure PersistedFiles where
  paid_invoices_file : Option (List (List Invoice))
  registry_file : Option Nat
deriving DecidableEq

/-- Day ordinal of the fixed minimum date `"1990-01-01"` (`MIN_DATE`,
controller.py line 24). -/
def MIN_DATE : Nat := 0

/-- Model of `_initialize_registry_and_unpaid_invoices` (lines
704-739): the registry file is read first and the paid file second
inside one `try`, so a missing file (either one) resets the registry to
`MIN_DATE` with an empty paid list; `_unpaid_invoices` is untouched. -/
def load_registry_and_paid_invoices (st : DijnetController) (fs : PersistedFiles) :
    DijnetController :=
  match fs.registry_file, fs.paid_invoices_file with
  | some r, some blocks => { st with registry := some r, paid_invoices := blocks.flatten }
  | _, _ => { st with registry := some MIN_DATE, paid_invoices := [] }

/-- The lazy load at the top of `update_invoices` (lines 449-450). -/
def ensure_registry_loaded (st : DijnetController) (fs : PersistedFiles) :
    DijnetController :=
  if st.registry.isNone then load_registry_and_paid_invoices st fs else st

/-- Parameter list of `DijnetSession.post_search_invoice`
(dijnet_session.py lines 162-168): four parameters besides `self`. -/
def post_search_invoice_params : List String :=
  ["provider_name", "reg_id", "from_date", "to_date"]

/-- Positional arguments of the `session.post_search_invoice` call in
`update_invoices` (controller.py line 478): five arguments. -/
def search_call_args (vfw_token from_date to_date : String) : List String :=
  ["", "", vfw_token, from_date, to_date]

/-- Python positional-call semantics: binding succeeds only when the
argument count matches the parameter count; otherwise the call raises
`TypeError` before the callee body runs. -/
def call_with_signature (params args : List String) :
    Except String (List (String × String)) :=
  if args.length = params.length then .ok (params.zip args) else .error "TypeError"

/-- How one refresh cycle of `update_invoices` ends. -/
inductive CycleOutcome where
  | completed
  | abortedLogin
  | typeErrorRaised
deriving DecidableEq

/-- Model of `DijnetController.update_invoices` (controller.py lines
443-631).  `loginOk` is the boolean `post_login` result; `possPaid` and
`possUnpaid` stand for the classified rows the search would yield (dead
inputs in practice, because the search call raises).  The returned
triple is the outcome, the controller state visible to callers
afterwards, and the persisted files afterwards. -/
def update_invoices (loginOk : Bool) (today : Nat) (vfw_token : String)
    (possPaid possUnpaid : List Invoice) (st : DijnetController) (fs : PersistedFiles) :
    CycleOutcome × DijnetController × PersistedFiles :=
  let st1 := ensure_registry_loaded st fs
  if loginOk then
    let from_date := toString (st1.registry.getD MIN_DATE)
    let to_date := toString today
    match call_with_signature post_search_invoice_params
        (search_call_args vfw_token from_date to_date) with
    | .error _ => (.typeErrorRaised, st1, fs)
    | .ok _ =>
      let m := merge_invoices possPaid possUnpaid st1.paid_invoices st1.unpaid_invoices
      let fs1 := { fs with
        paid_invoices_file := append_new_paid_invoices fs.paid_invoices_file m.newPaid }
      let nqd := next_query_date today m.unpaid
      let fs2 := { fs1 with registry_file := some nqd }
      (.completed, ⟨some nqd, m.paid, m.unpaid⟩, fs2)
  else (.abortedLogin, st1, fs)

/-! Helper lemmas about key equality and the merge loops. -/

theorem invoice_eq_refl (a : Invoice) : invoice_eq a a = true := by
  simp [invoice_eq]

theorem invoice_eq_of_key (a b : Invoice) (hp : a.provider = b.provider)
    (hn : a.invoice_no = b.invoice_no) : invoice_eq a b = true := by
  simp [invoice_eq, hp, hn]

theorem invoice_eq_key_bridge {x y b : Invoice} (hx : invoice_eq x b = true)
    (hy : invoice_eq y b = true) : invoice_eq x y = true := by
  simp only [invoice_eq, Bool.and_eq_true, beq_iff_eq] at hx hy ⊢
  exact ⟨hx.1.trans hy.1.symm, hx.2.trans hy.2.symm⟩

theorem contains_invoice_append (xs ys : List Invoice) (q : Invoice) :
    contains_invoice (xs ++ ys) q = (contains_invoice xs q || contains_invoice ys q) := by
  simp [contains_invoice, List.any_append]

theorem merge_paid_step_mono (s : MergeState) (p q : Invoice)
    (h : contains_invoice s.paid q = true) :
    contains_invoice (merge_paid_step s p).paid q = true := by
  unfold merge_paid_step
  by_cases hc : contains_invoice s.paid p = true
  · rw [if_pos hc]
    exact h
  · rw [if_neg hc]
    show contains_invoice (s.paid ++ [p]) q = true
    rw [contains_invoice_append, h]
    rfl

theorem foldl_merge_paid_step_mono (l : List Invoice) (s : MergeState) (q : Invoice)
    (h : contains_invoice s.paid q = true) :
    contains_invoice (l.foldl merge_paid_step s).paid q = true := by
  induction l generalizing s with
  | nil => exact h
  | cons p l ih => exact ih _ (merge_paid_step_mono s p q h)

theorem merge_paid_step_self (s : MergeState) (p : Invoice) :
    contains_invoice (merge_paid_step s p).paid p = true := by
  unfold merge_paid_step
  by_cases hc : contains_invoice s.paid p = true
  · rw [if_pos hc]
    exact hc
  · rw [if_neg hc]
    show contains_invoice (s.paid ++ [p]) p = true
    rw [contains_invoice_append]
    have hone : contains_invoice [p] p = true := by
      simp [contains_invoice, invoice_eq_refl]
    rw [hone, Bool.or_true]

theorem foldl_merge_paid_step_mem (l : List Invoice) :
    ∀ (s : MergeState) (p : Invoice), p ∈ l →
      contains_invoice (l.foldl merge_paid_step s).paid p = true := by
  induction l with
  | nil => intro s p hp; cases hp
  | cons q l ih =>
    intro s p hp
    rw [List.foldl_cons]
    rcases List.mem_cons.mp hp with h | h
    · subst h
      exact foldl_merge_paid_step_mono l _ p (merge_paid_step_self s p)
    · exact ih _ p h

theorem merge_paid_step_id (s : MergeState) (p : Invoice)
    (h : contains_invoice s.paid p = true) : merge_paid_step s p = s := by
  simp [merge_paid_step, h]

theorem foldl_merge_paid_step_id (l : List Invoice) (s : MergeState)
    (h : ∀ p ∈ l, contains_invoice s.paid p = true) : l.foldl merge_paid_step s = s := by
  induction l with
  | nil => rfl
  | cons q l ih =>
    rw [List.foldl_cons, merge_paid_step_id s q (h q (List.mem_cons_self q l))]
    exact ih fun p hp => h p (List.mem_cons_of_mem q hp)

theorem merge_unpaid_step_mono (un : List Invoice) (v u : Invoice)
    (h : contains_invoice un u = true) :
    contains_invoice (merge_unpaid_step un v) u = true := by
  unfold merge_unpaid_step
  by_cases hc : contains_invoice un v = true
  · rw [if_pos hc]
    exact h
  · rw [if_neg hc, contains_invoice_append, h]
    rfl

theorem foldl_merge_unpaid_step_mono (l : List Invoice) (un : List Invoice) (u : Invoice)
    (h : contains_invoice un u = true) :
    contains_invoice (l.foldl merge_unpaid_step un) u = true := by
  induction l generalizing un with
  | nil => exact h
  | cons v l ih => exact ih _ (merge_unpaid_step_mono un v u h)

theorem merge_unpaid_step_self (un : List Invoice) (u : Invoice) :
    contains_invoice (merge_unpaid_step un u) u = true := by
  unfold merge_unpaid_step
  by_cases hc : contains_invoice un u = true
  · rw [if_pos hc]
    exact hc
  · rw [if_neg hc, contains_invoice_append]
    have hone : contains_invoice [u] u = true := by
      simp [contains_invoice, invoice_eq_refl]
    rw [hone, Bool.or_true]

theorem foldl_merge_unpaid_step_mem (l : List Invoice) :
    ∀ (un : List Invoice) (u : Invoice), u ∈ l →
      contains_invoice (l.foldl merge_unpaid_step un) u = true := by
  induction l with
  | nil => intro un u hu; cases hu
  | cons v l ih =>
    intro un u hu
    rw [List.foldl_cons]
    rcases List.mem_cons.mp hu with h | h
    · subst h
      exact foldl_merge_unpaid_step_mono l _ u (merge_unpaid_step_self un u)
    · exact ih _ u h

theorem merge_unpaid_step_id (un : List Invoice) (u : Invoice)
    (h : contains_invoice un u = true) : merge_unpaid_step un u = un := by
  simp [merge_unpaid_step, h]

theorem foldl_merge_unpaid_step_id (l : List Invoice) (un : List Invoice)
    (h : ∀ u ∈ l, contains_invoice un u = true) : l.foldl merge_unpaid_step un = un := by
  induction l with
  | nil => rfl
  | cons v l ih =>
    rw [List.foldl_cons, merge_unpaid_step_id un v (h v (List.mem_cons_self v l))]
    exact ih fun u hu => h u (List.mem_cons_of_mem v hu)

theorem merge_invoices_paid (sp su p0 u0 : List Invoice) :
    (merge_invoices sp su p0 u0).paid = (sp.foldl merge_paid_step ⟨p0, u0, []⟩).paid := rfl

theorem merge_invoices_unpaid (sp su p0 u0 : List Invoice) :
    (merge_invoices sp su p0 u0).unpaid
      = su.foldl merge_unpaid_step (sp.foldl merge_paid_step ⟨p0, u0, []⟩).unpaid := rfl

theorem merge_invoices_newPaid (sp su p0 u0 : List Invoice) :
    (merge_invoices sp su p0 u0).newPaid
      = (sp.foldl merge_paid_step ⟨p0, u0, []⟩).newPaid := rfl

/-- Claim C1: the merge step of the reconciler is idempotent — for
every classified snapshot and every starting paid/unpaid state, running
the merge a second time against the state produced by the first run
changes neither the paid set nor the unpaid set, discovers no new paid
invoices, and appends no new block to the ledger file. -/
theorem merge_run_twice_idempotent (sp su paid0 unpaid0 : List Invoice)
    (f : Option (List (List Invoice))) :
    merge_invoices sp su (merge_invoices sp su paid0 unpaid0).paid
        (merge_invoices sp su paid0 unpaid0).unpaid
      = ⟨(merge_invoices sp su paid0 unpaid0).paid,
         (merge_invoices sp su paid0 unpaid0).unpaid, []⟩
    ∧ append_new_paid_invoices
        (append_new_paid_invoices f (merge_invoices sp su paid0 unpaid0).newPaid)
        (merge_invoices sp su (merge_invoices sp su paid0 unpaid0).paid
            (merge_invoices sp su paid0 unpaid0).unpaid).newPaid
      = append_new_paid_invoices f (merge_invoices sp su paid0 unpaid0).newPaid := by
  have hpaid : ∀ p ∈ sp,
      contains_invoice (merge_invoices sp su paid0 unpaid0).paid p = true := by
    intro p hp
    rw [merge_invoices_paid]
    exact foldl_merge_paid_step_mem sp ⟨paid0, unpaid0, []⟩ p hp
  have hunpaid : ∀ u ∈ su,
      contains_invoice (merge_invoices sp su paid0 unpaid0).unpaid u = true := by
    intro u hu
    rw [merge_invoices_unpaid]
    exact foldl_merge_unpaid_step_mem su _ u hu
  have hfold : sp.foldl merge_paid_step
      ⟨(merge_invoices sp su paid0 unpaid0).paid,
       (merge_invoices sp su paid0 unpaid0).unpaid, []⟩
      = ⟨(merge_invoices sp su paid0 unpaid0).paid,
         (merge_invoices sp su paid0 unpaid0).unpaid, []⟩ :=
    foldl_merge_paid_step_id sp _ hpaid
  have hfold2 : su.foldl merge_unpaid_step (merge_invoices sp su paid0 unpaid0).unpaid
      = (merge_invoices sp su paid0 unpaid0).unpaid :=
    foldl_merge_unpaid_step_id su _ hunpaid
  have hmain : merge_invoices sp su (merge_invoices sp su paid0 unpaid0).paid
      (merge_invoices sp su paid0 unpaid0).unpaid
      = ⟨(merge_invoices sp su paid0 unpaid0).paid,
         (merge_invoices sp su paid0 unpaid0).unpaid, []⟩ := by
    refine MergeState.ext ?_ ?_ ?_
    · rw [merge_invoices_paid, hfold]
    · rw [merge_invoices_unpaid, hfold]
      exact hfold2
    · rw [merge_invoices_newPaid, hfold]
  refine ⟨hmain, ?_⟩
  rw [hmain]
  rfl

theorem remove_first_invoice_no_key (b : Invoice) (l : List Invoice)
    (hpw : List.Pairwise (fun x y => invoice_eq x y = false) l) :
    ∀ u ∈ remove_first_invoice b l, invoice_eq u b = false := by
  induction l with
  | nil => intro u hu; cases hu
  | cons x xs ih =>
    rcases List.pairwise_cons.mp hpw with ⟨hx, hxs⟩
    intro u hu
    by_cases hxb : invoice_eq x b = true
    · rw [remove_first_invoice, if_pos hxb] at hu
      cases hub : invoice_eq u b with
      | false => rfl
      | true =>
        have h1 : invoice_eq x u = true := invoice_eq_key_bridge hxb hub
        have h2 : invoice_eq x u = false := hx u hu
        rw [h1] at h2
        exact Bool.noConfusion h2
    · rw [remove_first_invoice, if_neg hxb] at hu
      rcases List.mem_cons.mp hu with h | h
      · subst h
        exact Bool.eq_false_iff.mpr hxb
      · exact ih hxs u h

/-- Claim C2: invoice equality is decided by the (provider, invoice_no)
key only — two invoices with equal keys but arbitrary other payload
compare equal; consequently a fresh Paid invoice whose key matches an
existing paid entry is not added by the merge step, and when a Paid
invoice is added, no unpaid invoice with its key survives in the unpaid
set (given key-distinct unpaid entries). -/
theorem invoice_key_equality_merge (a b : Invoice) (hp : a.provider = b.provider)
    (hn : a.invoice_no = b.invoice_no) (paid unpaid np : List Invoice)
    (hpw : List.Pairwise (fun x y => invoice_eq x y = false) unpaid) :
    invoice_eq a b = true
    ∧ (a ∈ paid → merge_paid_step ⟨paid, unpaid, np⟩ b = ⟨paid, unpaid, np⟩)
    ∧ (contains_invoice paid b = false →
        (merge_paid_step ⟨paid, unpaid, np⟩ b).paid = paid ++ [b]
        ∧ ∀ u ∈ (merge_paid_step ⟨paid, unpaid, np⟩ b).unpaid, invoice_eq u b = false) := by
  have hab : invoice_eq a b = true := invoice_eq_of_key a b hp hn
  refine ⟨hab, ?_, ?_⟩
  · intro ha
    have hc : contains_invoice paid b = true := by
      simp only [contains_invoice, List.any_eq_true]
      exact ⟨a, ha, hab⟩
    exact merge_paid_step_id ⟨paid, unpaid, np⟩ b hc
  · intro hc
    have hcn : ¬ contains_invoice paid b = true := by
      rw [hc]
      exact Bool.false_ne_true
    constructor
    · unfold merge_paid_step
      rw [if_neg hcn]
    · intro u hu
      unfold merge_paid_step at hu
      rw [if_neg hcn] at hu
      exact remove_first_invoice_no_key b unpaid hpw u hu

/-- Witness for claim C2 at concrete invoices sharing key
("P", "42") with different payloads. -/
theorem invoice_key_equality_merge_witness :
    invoice_eq ⟨"P", "A", "42", 1, 100, 2, none⟩ ⟨"P", "B", "42", 3, -5, 4, some 9⟩ = true
    ∧ ((⟨"P", "A", "42", 1, 100, 2, none⟩ : Invoice) ∈ ([] : List Invoice) →
        merge_paid_step ⟨[], [⟨"P", "C", "42", 5, 6, 7, none⟩], []⟩
            ⟨"P", "B", "42", 3, -5, 4, some 9⟩
          = ⟨[], [⟨"P", "C", "42", 5, 6, 7, none⟩], []⟩)
    ∧ (contains_invoice [] ⟨"P", "B", "42", 3, -5, 4, some 9⟩ = false →
        (merge_paid_step ⟨[], [⟨"P", "C", "42", 5, 6, 7, none⟩], []⟩
            ⟨"P", "B", "42", 3, -5, 4, some 9⟩).paid
          = [] ++ [⟨"P", "B", "42", 3, -5, 4, some 9⟩]
        ∧ ∀ u ∈ (merge_paid_step ⟨[], [⟨"P", "C", "42", 5, 6, 7, none⟩], []⟩
              ⟨"P", "B", "42", 3, -5, 4, some 9⟩).unpaid,
            invoice_eq u ⟨"P", "B", "42", 3, -5, 4, some 9⟩ = false) :=
  invoice_key_equality_merge ⟨"P", "A", "42", 1, 100, 2, none⟩
    ⟨"P", "B", "42", 3, -5, 4, some 9⟩ rfl rfl [] [⟨"P", "C", "42", 5, 6, 7, none⟩] []
    (List.pairwise_singleton _ _)

/-- Claim C3 counterexample: a status text containing both the paid
phrase "Rendezett" and the unpaid phrase "Tovább a fizetéshez" is
classified Unpaid, not Paid — the go-to-pay rule is checked first
(lines 666-668), so the paid rule does not have highest precedence. -/
theorem paid_rule_precedence_counterexample :
    str_contains "Rendezett Tovább a fizetéshez" "Rendezett" = true
    ∧ str_contains "Rendezett Tovább a fizetéshez" "Tovább a fizetéshez" = true
    ∧ is_invoice_paid false "Rendezett Tovább a fizetéshez" 0 1 = some false
    ∧ is_invoice_paid true "Rendezett Tovább a fizetéshez" 0 1 = some false := by
  refine ⟨rfl, rfl, rfl, rfl⟩

/-- Claim C3 (amended): for every status text that contains a paid
phrase ("Rendezett" or "Fizetve") and does not contain
"Tovább a fizetéshez", the classifier returns Paid, whatever other
unpaid or encashment phrases the text contains; "Tovább a fizetéshez"
is the one unpaid phrase checked before the paid rules and wins over
them. -/
theorem paid_rule_wins_except_go_to_pay (flag : Bool) (txt : String) (d t : Nat)
    (hgo : str_contains txt "Tovább a fizetéshez" = false)
    (hpaid : str_contains txt "Rendezett" = true ∨ str_contains txt "Fizetve" = true) :
    is_invoice_paid flag txt d t = some true := by
  rcases hpaid with h | h
  · simp only [is_invoice_paid, hgo, h]
    rfl
  · cases hr : str_contains txt "Rendezett" with
    | true =>
      simp only [is_invoice_paid, hgo, hr]
      rfl
    | false =>
      simp only [is_invoice_paid, hgo, hr, h]
      rfl

/-- Witness for claim C3 (amended) on a text holding the paid phrase
"Fizetve" next to the unpaid phrase "Rendezetlen". -/
theorem paid_rule_wins_except_go_to_pay_witness :
    str_contains "Fizetve Rendezetlen" "Tovább a fizetéshez" = false
    ∧ str_contains "Fizetve Rendezetlen" "Fizetve" = true
    ∧ str_contains "Fizetve Rendezetlen" "Rendezetlen" = true
    ∧ is_invoice_paid false "Fizetve Rendezetlen" 0 0 = some true :=
  ⟨rfl, rfl, rfl,
    paid_rule_wins_except_go_to_pay false "Fizetve Rendezetlen" 0 0 rfl (Or.inr rfl)⟩

/-- Claim C4: on a row matched only by the encashment/direct-debit
rule, the verdict with the flag set is Paid exactly when
deadline < today, and with the flag unset it is always Unpaid. -/
theorem encashment_classification (txt : String) (d t : Nat)
    (h1 : str_contains txt "Tovább a fizetéshez" = false)
    (h2 : str_contains txt "Rendezett" = false)
    (h3 : str_contains txt "Fizetve" = false)
    (h4 : str_contains txt "Rendezetlen" = false)
    (h5 : str_contains txt "Mobiltelefonra küldve" = false)
    (h6 : str_contains txt "Internetbanknak átadva" = false)
    (h7 : (str_contains txt "Csoportos beszedés"
        || str_contains txt "Beszedés alatt") = true) :
    is_invoice_paid true txt d t = some (decide (d < t))
    ∧ (is_invoice_paid true txt d t = some true ↔ d < t)
    ∧ is_invoice_paid false txt d t = some false := by
  have hout : ∀ flag : Bool, is_invoice_paid flag txt d t
      = (if flag then some (decide (d < t)) else some false) := by
    intro flag
    simp only [is_invoice_paid, h1, h2, h3, h4, h5, h6, h7]
    rfl
  refine ⟨?_, ?_, ?_⟩
  · rw [hout true]
    rfl
  · rw [hout true]
    simp
  · rw [hout false]
    rfl

/-- Witness for claim C4 on the status text "Csoportos beszedés" with
deadline yesterday and deadline tomorrow. -/
theorem encashment_classification_witness :
    is_invoice_paid true "Csoportos beszedés" 5 6 = some true
    ∧ is_invoice_paid false "Csoportos beszedés" 5 6 = some false
    ∧ is_invoice_paid true "Csoportos beszedés" 7 6 = some false :=
  ⟨(encashment_classification "Csoportos beszedés" 5 6
      rfl rfl rfl rfl rfl rfl rfl).1,
   (encashment_classification "Csoportos beszedés" 5 6
      rfl rfl rfl rfl rfl rfl rfl).2.2,
   (encashment_classification "Csoportos beszedés" 7 6
      rfl rfl rfl rfl rfl rfl rfl).1⟩

theorem nqd_step_min (acc : Nat) (u : Invoice) :
    (if acc > u.issuance_date then u.issuance_date else acc) = min acc u.issuance_date := by
  by_cases h : acc > u.issuance_date
  · rw [if_pos h, Nat.min_eq_right (Nat.le_of_lt h)]
  · rw [if_neg h, Nat.min_eq_left (Nat.le_of_not_lt h)]

theorem next_query_date_eq_foldl_min (today : Nat) (l : List Invoice) :
    next_query_date today l = (l.map Invoice.issuance_date).foldl min (today - 31) := by
  have h : (fun (acc : Nat) (u : Invoice) =>
        if acc > u.issuance_date then u.issuance_date else acc)
      = fun acc u => min acc u.issuance_date := by
    funext acc u
    exact nqd_step_min acc u
  unfold next_query_date
  rw [h, List.foldl_map]

theorem foldl_min_le_init (l : List Nat) (a : Nat) : l.foldl min a ≤ a := by
  induction l generalizing a with
  | nil => exact Nat.le_refl a
  | cons x l ih => exact Nat.le_trans (ih (min a x)) (Nat.min_le_left a x)

theorem foldl_min_le_mem (l : List Nat) (a : Nat) : ∀ x ∈ l, l.foldl min a ≤ x := by
  induction l generalizing a with
  | nil => intro x hx; cases hx
  | cons y l ih =>
    intro x hx
    rcases List.mem_cons.mp hx with h | h
    · subst h
      exact Nat.le_trans (foldl_min_le_init l (min a x)) (Nat.min_le_right a x)
    · exact ih (min a y) x h

theorem foldl_min_attained (l : List Nat) (a : Nat) :
    l.foldl min a = a ∨ ∃ x ∈ l, l.foldl min a = x := by
  induction l generalizing a with
  | nil => exact Or.inl rfl
  | cons y l ih =>
    rcases ih (min a y) with h | ⟨x, hx, hfx⟩
    · rcases Nat.le_total a y with hay | hya
      · left
        show l.foldl min (min a y) = a
        rw [h, Nat.min_eq_left hay]
      · right
        refine ⟨y, List.mem_cons_self y l, ?_⟩
        show l.foldl min (min a y) = y
        rw [h, Nat.min_eq_right hya]
    · exact Or.inr ⟨x, List.mem_cons_of_mem y hx, hfx⟩

/-- Claim C5: the next watermark is `today - 31` when the unpaid set is
empty, and otherwise the minimum of `today - 31` and the earliest
issuance date among the still-unpaid invoices: it never exceeds
`today - 31`, never exceeds any unpaid issuance date, is attained at
one of them, and for a single unpaid invoice issued before
`today - 31` it equals that invoice's issuance date. -/
theorem next_query_date_spec (today : Nat) (unpaid : List Invoice) :
    (unpaid = [] → next_query_date today unpaid = today - 31)
    ∧ next_query_date today unpaid ≤ today - 31
    ∧ (∀ v ∈ unpaid, next_query_date today unpaid ≤ v.issuance_date)
    ∧ (next_query_date today unpaid = today - 31
        ∨ ∃ v ∈ unpaid, next_query_date today unpaid = v.issuance_date)
    ∧ ∀ u : Invoice, unpaid = [u] → u.issuance_date ≤ today - 31 →
        next_query_date today unpaid = u.issuance_date := by
  refine ⟨?_, ?_, ?_, ?_, ?_⟩
  · intro h
    subst h
    rfl
  · rw [next_query_date_eq_foldl_min]
    exact foldl_min_le_init _ _
  · intro v hv
    rw [next_query_date_eq_foldl_min]
    exact foldl_min_le_mem _ _ _ (List.mem_map_of_mem Invoice.issuance_date hv)
  · rw [next_query_date_eq_foldl_min]
    rcases foldl_min_attained (unpaid.map Invoice.issuance_date) (today - 31) with h | hx
    · exact Or.inl h
    · rcases hx with ⟨x, hx, hfx⟩
      rcases List.mem_map.mp hx with ⟨v, hv, hvx⟩
      refine Or.inr ⟨v, hv, ?_⟩
      rw [hfx, hvx]
  · intro u h hle
    subst h
    rw [next_query_date_eq_foldl_min]
    show min (today - 31) u.issuance_date = u.issuance_date
    exact Nat.min_eq_right hle

/-- Witness for claim C5: an empty unpaid set gives `today - 31`, and a
single unpaid invoice issued 60 days before day 100 gives its issuance
date 40 (below the default 69). -/
theorem next_query_date_spec_witness :
    next_query_date 100 [] = 100 - 31
    ∧ next_query_date 100 [⟨"P", "D", "N", 40, 10, 45, none⟩] = 40 :=
  ⟨(next_query_date_spec 100 []).1 rfl,
   (next_query_date_spec 100 [⟨"P", "D", "N", 40, 10, 45, none⟩]).2.2.2.2
     ⟨"P", "D", "N", 40, 10, 45, none⟩ rfl (by decide)⟩

/-- Claim C6 evaluation (code bug): for a Paid row with deadline 10
whose history table holds a non-matching row (date 5) followed by a
matching successful-payment row (date 7), the code produces two paid
records — the first with paid_at equal to the deadline even though a
matching history entry exists — instead of exactly one record with the
matched date; and with an empty history table it produces no record at
all instead of one deadline-dated record. -/
theorem paid_records_per_history_row_eval :
    (paid_records_for_row (fun p => ⟨"ELMU", "D", "INV1", 1, 5000, 10, some p⟩) 10
        [⟨5, "Egyéb"⟩, ⟨7, "**Sikeres fizetés**"⟩]).map Invoice.paid_at
      = [some 10, some 7]
    ∧ paid_records_for_row (fun p => ⟨"ELMU", "D", "INV1", 1, 5000, 10, some p⟩) 10 []
      = [] :=
  ⟨rfl, rfl⟩

/-- Claim C7 counterexample: with an uninitialized registry and a
non-empty persisted ledger, a cycle whose login fails still changes the
in-memory paid cache (the lazy file load of lines 449-450 runs before
the login check), so the caches that existed before the cycle are not
returned unchanged. -/
theorem login_failure_cache_counterexample :
    (update_invoices false 100 "tok" [] [] ⟨none, [], []⟩
        ⟨some [[⟨"P", "D", "N", 1, 1, 2, some 3⟩]], some 50⟩).2.1.paid_invoices
      ≠ (⟨none, [], []⟩ : DijnetController).paid_invoices := by
  decide

/-- Claim C7 (amended): when login fails, the cycle aborts before any
search, classification or merge, the persisted ledger and registry
files are not written, and the caches returned to callers are exactly
the lazily-loaded state — which coincides with the pre-cycle caches
whenever the registry was already initialized. -/
theorem login_failure_aborts_cycle (today : Nat) (tok : String)
    (pp pu : List Invoice) (st : DijnetController) (fs : PersistedFiles) :
    update_invoices false today tok pp pu st fs
      = (CycleOutcome.abortedLogin, ensure_registry_loaded st fs, fs)
    ∧ (st.registry.isSome = true → ensure_registry_loaded st fs = st) := by
  refine ⟨rfl, ?_⟩
  intro h
  cases hr : st.registry with
  | none =>
    rw [hr] at h
    cases h
  | some r =>
    unfold ensure_registry_loaded
    rw [hr]
    rfl

/-- Witness for claim C7 (amended) at an already-initialized controller
with both files missing. -/
theorem login_failure_aborts_cycle_witness :
    update_invoices false 100 "tok" [] [] ⟨some 5, [], []⟩ ⟨none, none⟩
      = (CycleOutcome.abortedLogin,
         ensure_registry_loaded ⟨some 5, [], []⟩ ⟨none, none⟩, ⟨none, none⟩)
    ∧ ensure_registry_loaded ⟨some 5, [], []⟩ ⟨none, none⟩ = ⟨some 5, [], []⟩ :=
  ⟨(login_failure_aborts_cycle 100 "tok" [] [] ⟨some 5, [], []⟩ ⟨none, none⟩).1,
   (login_failure_aborts_cycle 100 "tok" [] [] ⟨some 5, [], []⟩ ⟨none, none⟩).2 rfl⟩

/-- Claim C8 counterexample: on a malformed (non-JSON) login response
body, `post_login` does not return `false` — `response.json()` raises
and the exception escapes (dijnet_session.py line 244). -/
theorem post_login_malformed_counterexample :
    post_login LoginResponse.malformedBody ≠ Except.ok false
    ∧ post_login LoginResponse.malformedBody = Except.error "JSONDecodeError" :=
  ⟨fun h => Except.noConfusion h, rfl⟩

/-- Claim C8 (amended): `post_login` returns the boolean success value
of a well-formed envelope, while a non-JSON body or a JSON body lacking
the success field makes the operation raise (an error result), not
return `false`. -/
theorem post_login_envelope_behavior :
    (∀ b : Bool, post_login (LoginResponse.envelope b) = Except.ok b)
    ∧ (∃ e, post_login LoginResponse.malformedBody = Except.error e)
    ∧ (∃ e, post_login LoginResponse.missingSuccessField = Except.error e) :=
  ⟨fun _ => rfl, ⟨"JSONDecodeError", rfl⟩, ⟨"KeyError: success", rfl⟩⟩

theorem has_file_iff (files : List String) (n : String) :
    has_file files n = true ↔ n ∈ files := by
  simp [has_file]

theorem fresh_names_cons (files : List String) (n : String) (ns : List String) :
    fresh_names files (n :: ns)
      = if has_file files n then fresh_names files ns
        else n :: fresh_names (files ++ [n]) ns := rfl

theorem download_fold_eq (names : List String) :
    ∀ files w : List String,
      names.foldl download_step (files, w)
        = (files ++ fresh_names files names, w ++ fresh_names files names) := by
  induction names with
  | nil =>
    intro files w
    simp [fresh_names]
  | cons n ns ih =>
    intro files w
    rw [List.foldl_cons]
    by_cases h : has_file files n = true
    · have hstep : download_step (files, w) n = (files, w) := by
        unfold download_step
        rw [if_pos h]
      rw [hstep, ih files w, fresh_names_cons, if_pos h]
    · have hstep : download_step (files, w) n = (files ++ [n], w ++ [n]) := by
        unfold download_step
        rw [if_neg h]
      rw [hstep, ih (files ++ [n]) (w ++ [n]), fresh_names_cons, if_neg h]
      simp

theorem fresh_names_not_mem (names : List String) :
    ∀ (files : List String) (f : String), f ∈ fresh_names files names → f ∉ files := by
  induction names with
  | nil =>
    intro files f hf
    cases hf
  | cons n ns ih =>
    intro files f hf
    by_cases h : has_file files n = true
    · rw [fresh_names, if_pos h] at hf
      exact ih files f hf
    · rw [fresh_names, if_neg h] at hf
      rcases List.mem_cons.mp hf with he | he
      · subst he
        intro hmem
        exact h ((has_file_iff files f).mpr hmem)
      · intro hmem
        exact ih (files ++ [n]) f he (List.mem_append_left [n] hmem)

theorem fresh_names_nodup (names : List String) :
    ∀ files : List String, (fresh_names files names).Nodup := by
  induction names with
  | nil =>
    intro files
    exact List.nodup_nil
  | cons n ns ih =>
    intro files
    by_cases h : has_file files n = true
    · rw [fresh_names, if_pos h]
      exact ih files
    · rw [fresh_names, if_neg h]
      refine List.nodup_cons.mpr ⟨?_, ih (files ++ [n])⟩
      intro hmem
      exact fresh_names_not_mem ns (files ++ [n]) n hmem
        (List.mem_append_right files (List.mem_singleton.mpr rfl))

theorem mem_files_after_run (names : List String) :
    ∀ (files : List String) (n : String), n ∈ names →
      n ∈ files ++ fresh_names files names := by
  induction names with
  | nil =>
    intro files n hn
    cases hn
  | cons m ns ih =>
    intro files n hn
    by_cases h : has_file files m = true
    · rw [fresh_names, if_pos h]
      rcases List.mem_cons.mp hn with he | he
      · subst he
        exact List.mem_append_left _ ((has_file_iff files n).mp h)
      · exact ih files n he
    · rw [fresh_names, if_neg h]
      rcases List.mem_cons.mp hn with he | he
      · subst he
        exact List.mem_append_right _ (List.mem_cons_self _ _)
      · have hrec := ih (files ++ [m]) n he
        rcases List.mem_append.mp hrec with hl | hr
        · rcases List.mem_append.mp hl with hl2 | hr2
          · exact List.mem_append_left _ hl2
          · exact List.mem_append_right _
              (List.mem_cons.mpr (Or.inl (List.mem_singleton.mp hr2)))
        · exact List.mem_append_right _ (List.mem_cons_of_mem m hr)

theorem fresh_names_nil_of_all_mem (names : List String) :
    ∀ files : List String, (∀ n ∈ names, n ∈ files) → fresh_names files names = [] := by
  induction names with
  | nil =>
    intro files _
    rfl
  | cons n ns ih =>
    intro files h
    have hn : has_file files n = true :=
      (has_file_iff files n).mpr (h n (List.mem_cons_self n ns))
    rw [fresh_names, if_pos hn]
    exact ih files fun m hm => h m (List.mem_cons_of_mem n hm)

theorem process_links_eq (slug : String → String) (issuance_date : Nat)
    (invoice_no : String) (hrefs : List String) (files : List String) :
    process_links slug issuance_date invoice_no hrefs files
      = (files ++ fresh_names files
            (hrefs.map (attachment_filename slug issuance_date invoice_no)),
         fresh_names files
            (hrefs.map (attachment_filename slug issuance_date invoice_no))) := by
  unfold process_links download_run
  rw [download_fold_eq]
  simp

/-- Claim C9: attachment download is idempotent — the filename is a
deterministic function of the issuance date, invoice number and the
link's logical name and extension, an already-present file is never
downloaded again or overwritten, and processing the same invoice's
links a second time performs no write and leaves the directory
unchanged; one run writes each distinct missing filename exactly
once. -/
theorem attachment_download_idempotent (slug : String → String) (issuance_date : Nat)
    (invoice_no : String) (hrefs : List String) (files0 : List String) :
    process_links slug issuance_date invoice_no hrefs
        (process_links slug issuance_date invoice_no hrefs files0).1
      = ((process_links slug issuance_date invoice_no hrefs files0).1, [])
    ∧ (process_links slug issuance_date invoice_no hrefs files0).1
      = files0 ++ (process_links slug issuance_date invoice_no hrefs files0).2
    ∧ (process_links slug issuance_date invoice_no hrefs files0).2.Nodup
    ∧ ∀ f ∈ (process_links slug issuance_date invoice_no hrefs files0).2, f ∉ files0 := by
  have h1 := process_links_eq slug issuance_date invoice_no hrefs files0
  refine ⟨?_, ?_, ?_, ?_⟩
  · rw [h1]
    rw [process_links_eq]
    rw [fresh_names_nil_of_all_mem _ _ (fun n hn => mem_files_after_run _ files0 n hn)]
    simp
  · rw [h1]
  · rw [h1]
    exact fresh_names_nodup _ files0
  · rw [h1]
    exact fresh_names_not_mem _ files0

/-- Claim C10: in every cycle whose login succeeds, the controller
calls `post_search_invoice` with five positional arguments while the
session method accepts four, so the call raises `TypeError` and the
cycle never reaches the merging or persisting steps — the persisted
files are returned unchanged and the outcome is never `completed`. -/
theorem search_call_arity_mismatch (today : Nat) (tok : String) (pp pu : List Invoice)
    (st : DijnetController) (fs : PersistedFiles) :
    (search_call_args tok
        (toString ((ensure_registry_loaded st fs).registry.getD MIN_DATE))
        (toString today)).length = 5
    ∧ post_search_invoice_params.length = 4
    ∧ update_invoices true today tok pp pu st fs
      = (CycleOutcome.typeErrorRaised, ensure_registry_loaded st fs, fs) :=
  ⟨rfl, rfl, rfl⟩

/-- Witness for claim C9 at one concrete link: the second run over the
directory produced by the first run performs no write, and the written
name "3_I_szamla.pdf" was not present initially. -/
theorem attachment_download_idempotent_witness :
    process_links (fun s => s) 3 "I" ["szamla_pdf?x=1"]
        (process_links (fun s => s) 3 "I" ["szamla_pdf?x=1"] []).1
      = ((process_links (fun s => s) 3 "I" ["szamla_pdf?x=1"] []).1, [])
    ∧ "3_I_szamla.pdf" ∉ ([] : List String) :=
  ⟨(attachment_download_idempotent (fun s => s) 3 "I" ["szamla_pdf?x=1"] []).1,
   (attachment_download_idempotent (fun s => s) 3 "I" ["szamla_pdf?x=1"] []).2.2.2
     "3_I_szamla.pdf" (by decide)⟩
